import Mathlib

/-!
# Verification of the Magento 2 DI plugin-analysis script

Shallow embedding of the PHP analysis script (get-plugins script plus its
bootstrap helper) that reconstructs the effective set of interceptor
("plugin") declarations for a target class across configuration scopes and
synthesizes the interception execution order.

Modelling conventions:
* PHP ordered associative arrays are embedded as `List (String × α)`;
  setting an existing key keeps its position, new keys are appended, and
  `unset` removes the pair (`assocSet` / `assocUnset` below).
* The filesystem and the XML loader are an explicit oracle `Fs`:
  `fileExists` models `file_exists`, `loadXml` models `simplexml_load_file`
  (`none` = load failure); a loaded document is the list of `<type>` nodes
  that the `//type` xpath returns, in document order.
* PHP reflection is an oracle `ReflectionEnv`: `classes name = none` models
  a `ReflectionException`, `some info` carries the parent chain, interface
  names, public method names and the `hasMethod` universe.
* PHP `empty($s)` on a string is true exactly for `""` and `"0"`
  (`phpEmpty`); the short ternary `?:` uses the same truthiness.
* `usort` in PHP 8 is a stable sort; the ascending-by-sortOrder comparator
  `a.sortOrder - b.sortOrder` is embedded as the stable
  `List.insertionSort` by `sortOrder ≤`.  (Integer overflow in the PHP
  comparator promotes to float and keeps the sign, so the comparator is
  exactly ascending-by-sortOrder.)
* Quotes inside PHP warning/error message strings are elided.
-/

namespace MagePlugins

/-- PHP `empty()` on a string: true for `""` and `"0"`. -/
def phpEmpty (s : String) : Bool := s == "" || s == "0"

/-- PHP `ltrim($s, "\\")`: strip leading backslashes.  (Spelled over the
character list so the kernel can evaluate it.) -/
def ltrimBackslash (s : String) : String :=
  String.mk (s.data.dropWhile (fun c => c == '\\'))

/-- PHP `strpos($s, $pre) === 0` (structural-recursion spelling). -/
def strStartsWith (s pre : String) : Bool := List.isPrefixOf pre.data s.data

/-- PHP `ucfirst`: uppercase the first character. -/
def ucfirst (s : String) : String :=
  match s.data with
  | [] => s
  | c :: cs => String.mk (c.toUpper :: cs)

/-- One `<plugin>` XML element: the four attributes the script reads.
`sortOrder` is `none` when the attribute is absent (`isset` fails); an
absent `type`/`name`/`disabled` attribute casts to `""` in PHP. -/
structure PluginNode where
  name : String
  type : String
  sortOrder : Option Int
  disabled : String
deriving DecidableEq, Repr

/-- One `<type>` XML element with its `<plugin>` children in document order. -/
structure TypeNode where
  name : String
  plugins : List PluginNode
deriving DecidableEq, Repr

/-- Filesystem / XML-loader oracle. -/
structure Fs where
  fileExists : String → Bool
  loadXml : String → Option (List TypeNode)

/-- A merged plugin declaration entry, as stored in the parser mapping. -/
structure PluginDecl where
  pluginName : String
  pluginType : String
  targetType : String
  sortOrder : Int
  disabled : String
  sourceFile : String
deriving DecidableEq, Repr

/-- PHP ordered associative array keyed by `targetType::pluginName`. -/
abbrev PluginMap := List (String × PluginDecl)

/-- Lookup (`$m[$k]` read / `isset`). -/
def assocGet (m : PluginMap) (k : String) : Option PluginDecl :=
  (m.find? (fun e => e.1 == k)).map (fun e => e.2)

/-- PHP `$m[$k] = v`: overwrite in place if the key exists (a PHP array
holds each key at most once, so replacing the first occurrence suffices),
else append. -/
def assocSet (m : PluginMap) (k : String) (v : PluginDecl) : PluginMap :=
  match m with
  | [] => [(k, v)]
  | e :: t => if e.1 == k then (k, v) :: t else e :: assocSet t k v

/-- Process one `<plugin>` element (body of the inner parser loop). -/
def parsePluginNode (plugins : PluginMap) (diFile targetType : String)
    (node : PluginNode) : PluginMap :=
  if phpEmpty node.name then plugins
  else
    match assocGet plugins (targetType ++ "::" ++ node.name) with
    | some old =>
      if phpEmpty node.type then
        -- refinement: key present and new element has empty type
        let d := if node.disabled != "" then node.disabled else old.disabled
        let so := match node.sortOrder with
                  | some s => s
                  | none => old.sortOrder
        assocSet plugins (targetType ++ "::" ++ node.name)
          { old with disabled := d, sortOrder := so, sourceFile := diFile }
      else
        assocSet plugins (targetType ++ "::" ++ node.name)
          { pluginName := node.name
            pluginType := node.type
            targetType := targetType
            sortOrder := node.sortOrder.getD 0
            disabled := node.disabled
            sourceFile := diFile }
    | none =>
      assocSet plugins (targetType ++ "::" ++ node.name)
        { pluginName := node.name
          -- `$pluginType ?: (isset ? old : "")`: key absent here, so falsy type gives ""
          pluginType := if phpEmpty node.type then "" else node.type
          targetType := targetType
          sortOrder := node.sortOrder.getD 0
          disabled := node.disabled
          sourceFile := diFile }

/-- Process one `<type>` element: skipped entirely when its name is empty. -/
def parseTypeNode (plugins : PluginMap) (diFile : String) (t : TypeNode) : PluginMap :=
  if phpEmpty t.name then plugins
  else t.plugins.foldl (fun acc node => parsePluginNode acc diFile t.name node) plugins

/-- Parse one file: a file that fails to load is skipped silently. -/
def parseFile (fs : Fs) (plugins : PluginMap) (diFile : String) : PluginMap :=
  match fs.loadXml diFile with
  | none => plugins
  | some types => types.foldl (fun acc t => parseTypeNode acc diFile t) plugins

/-- `parsePluginsFromFiles`: fold the files in order into one merged mapping. -/
def parsePluginsFromFiles (fs : Fs) (diFiles : List String) : PluginMap :=
  diFiles.foldl (fun acc f => parseFile fs acc f) []

/-- `collectDiXmlFiles` from the bootstrap: per module the global di.xml and,
for non-global scopes, the area di.xml, then the root-level app/etc/di.xml.
The foreach-append loop is modelled with `List.foldl` over the module list. -/
def collectDiXmlFiles (fs : Fs) (modulePaths : List (String × String))
    (magentoRoot scope : String) : List String :=
  let files := modulePaths.foldl (fun files mp =>
    let globalDi := mp.2 ++ "/etc/di.xml"
    let files := if fs.fileExists globalDi then files ++ [globalDi] else files
    if scope != "global" then
      let areaDi := mp.2 ++ "/etc/" ++ scope ++ "/di.xml"
      if fs.fileExists areaDi then files ++ [areaDi] else files
    else files) []
  let appDi := magentoRoot ++ "/app/etc/di.xml"
  if fs.fileExists appDi then files ++ [appDi] else files

/-- Reflection data for one loadable class. -/
structure ClassInfo where
  parents : List String
  interfaces : List String
  publicMethods : List String
  methods : List String
deriving DecidableEq, Repr

/-- PHP reflection oracle: `none` models a `ReflectionException`. -/
structure ReflectionEnv where
  classes : String → Option ClassInfo

/-- The fixed scope enumeration of the script. -/
def allScopes : List String :=
  ["global", "adminhtml", "frontend", "crontab", "webapi_rest", "webapi_soap", "graphql"]

/-- The `foundMethods` map: hook kind to synthesized method name, in the
fixed before/around/after key order of the script. -/
structure FoundMethods where
  before : Option String
  around : Option String
  after : Option String
deriving DecidableEq, Repr

/-- PHP `empty($foundMethods)` on the hook map: no hook kind present. -/
def FoundMethods.isEmpty (f : FoundMethods) : Bool :=
  f.before.isNone && f.around.isNone && f.after.isNone

/-- A plugin declaration enriched by the method filter (`methods`,
`reflectionError`, `module`) and later stamped with `scope`; the PHP array
has no `scope` key before stamping, modelled by the default `""`. -/
structure FilteredPlugin where
  pluginName : String
  pluginType : String
  targetType : String
  sortOrder : Int
  disabled : String
  sourceFile : String
  methods : FoundMethods
  reflectionError : Option String
  module : Option String
  scope : String
deriving DecidableEq, Repr

/-- `determineModule`: attribute a di.xml path to its owning module. -/
def determineModule (diFile : String) (modulePaths : List (String × String))
    (magentoRoot : String) : Option String :=
  match modulePaths.find? (fun mp => strStartsWith diFile (mp.2 ++ "/")) with
  | some mp => some mp.1
  | none =>
    if strStartsWith diFile (magentoRoot ++ "/app/etc/") then some "app/etc" else none

/-- Body of the `filterPluginsByMethod` loop for one plugin: `none` when the
plugin has no found hook and is dropped. -/
def processPlugin (env : ReflectionEnv) (ucfirstMethod : String)
    (modulePaths : List (String × String)) (magentoRoot : String)
    (plugin : PluginDecl) : Option FilteredPlugin :=
  let beforeName := "before" ++ ucfirstMethod
  let aroundName := "around" ++ ucfirstMethod
  let afterName := "after" ++ ucfirstMethod
  let res : FoundMethods × Option String :=
    if !(phpEmpty plugin.pluginType) then
      match env.classes plugin.pluginType with
      | some info =>
        ({ before := if info.methods.contains beforeName then some beforeName else none
           around := if info.methods.contains aroundName then some aroundName else none
           after := if info.methods.contains afterName then some afterName else none }, none)
      | none =>
        ({ before := some beforeName, around := some aroundName, after := some afterName },
         some ("Could not reflect plugin class " ++ plugin.pluginType))
    else
      ({ before := some beforeName, around := some aroundName, after := some afterName },
       some ("Plugin " ++ plugin.pluginName ++ " has no type specified"))
  if res.1.isEmpty then none
  else some
    { pluginName := plugin.pluginName
      pluginType := plugin.pluginType
      targetType := plugin.targetType
      sortOrder := plugin.sortOrder
      disabled := plugin.disabled
      sourceFile := plugin.sourceFile
      methods := res.1
      reflectionError := res.2
      module := determineModule plugin.sourceFile modulePaths magentoRoot
      scope := "" }

/-- `filterPluginsByMethod`: the foreach-append loop as `List.filterMap`. -/
def filterPluginsByMethod (env : ReflectionEnv) (matchedPlugins : List PluginDecl)
    (ucfirstMethod : String) (modulePaths : List (String × String))
    (magentoRoot : String) : List FilteredPlugin :=
  matchedPlugins.filterMap (processPlugin env ucfirstMethod modulePaths magentoRoot)

/-- The ordering the `usort` comparator `a.sortOrder - b.sortOrder` induces. -/
def pluginLE (a b : FilteredPlugin) : Prop := a.sortOrder ≤ b.sortOrder

instance : DecidableRel pluginLE := fun a b =>
  inferInstanceAs (Decidable (a.sortOrder ≤ b.sortOrder))

instance : IsTotal FilteredPlugin pluginLE := ⟨fun a b => Int.le_total a.sortOrder b.sortOrder⟩

instance : IsTrans FilteredPlugin pluginLE := ⟨fun _ _ _ => Int.le_trans⟩

/-- PHP 8 `usort` with the ascending sortOrder comparator: a stable
ascending sort, embedded as insertion sort (stable sorts by one key agree). -/
def sortBySortOrder (l : List FilteredPlugin) : List FilteredPlugin :=
  List.insertionSort pluginLE l

/-- One entry of the synthesized execution order. The PHP key `class` is
spelled `cls` (`class` is a Lean keyword). -/
structure ExecutionStep where
  step : String
  pluginName : Option String
  cls : String
  method : String
  sortOrder : Option Int
deriving DecidableEq, Repr

/-- The intermediate per-hook entry collected by `buildExecutionOrder`. -/
structure HookEntry where
  pluginName : String
  pluginType : String
  sortOrder : Int
  method : String
deriving DecidableEq, Repr

def mkHookStep (s : String) (e : HookEntry) : ExecutionStep :=
  { step := s
    pluginName := some e.pluginName
    cls := e.pluginType
    method := e.method
    sortOrder := some e.sortOrder }

/-- Collect the hook entries for one hook kind, in plugin-list order; the
single PHP loop filling three arrays is equivalent to one pass per array. -/
def collectHooks (plugins : List FilteredPlugin)
    (get : FilteredPlugin → Option String) : List HookEntry :=
  plugins.filterMap (fun p => (get p).map (fun m =>
    { pluginName := p.pluginName
      pluginType := p.pluginType
      sortOrder := p.sortOrder
      method := m }))

/-- `buildExecutionOrder`: before steps, around (entering) steps, the single
original step, around (exiting) steps in reverse, after steps. -/
def buildExecutionOrder (plugins : List FilteredPlugin)
    (className methodName : String) : List ExecutionStep :=
  let beforeMethods := collectHooks plugins (fun p => p.methods.before)
  let aroundMethods := collectHooks plugins (fun p => p.methods.around)
  let afterMethods := collectHooks plugins (fun p => p.methods.after)
  beforeMethods.map (mkHookStep "before")
    ++ aroundMethods.map (mkHookStep "around (entering)")
    ++ [{ step := "original"
          pluginName := none
          cls := className
          method := methodName
          sortOrder := none }]
    ++ aroundMethods.reverse.map (mkHookStep "around (exiting)")
    ++ afterMethods.map (mkHookStep "after")

/-- One scope entry of `scopeResults`. -/
structure ScopeResult where
  plugins : List FilteredPlugin
  executionOrder : List ExecutionStep
  pluginCount : Nat
deriving DecidableEq, Repr

/-- `analyzeMethod`: filter each scope by method, skip empty scopes, sort,
stamp the scope, and build the execution order.  The foreach over scopes
with conditional insertion is modelled as `List.filterMap`. -/
def analyzeMethod (env : ReflectionEnv) (methodName : String)
    (perScopeMatchedPlugins : List (String × List PluginDecl))
    (className : String) (modulePaths : List (String × String))
    (magentoRoot : String) : List (String × ScopeResult) :=
  let ucfirstMethod := ucfirst methodName
  perScopeMatchedPlugins.filterMap (fun sm =>
    let filteredPlugins :=
      filterPluginsByMethod env sm.2 ucfirstMethod modulePaths magentoRoot
    if filteredPlugins.isEmpty then none
    else
      let sorted := sortBySortOrder filteredPlugins
      let stamped := sorted.map (fun p => { p with scope := sm.1 })
      some (sm.1,
        { plugins := stamped
          executionOrder := buildExecutionOrder stamped className methodName
          pluginCount := stamped.length }))

/-- Step 1 of the script: resolve the class hierarchy, warning on failure. -/
def hierarchyAndWarnings (env : ReflectionEnv) (className : String) :
    List String × List String :=
  match env.classes className with
  | some ci => ([ltrimBackslash className] ++ ci.parents ++ ci.interfaces, [])
  | none =>
    ([ltrimBackslash className],
     ["Could not reflect class " ++ className
        ++ ". Analysis will use the literal class name only."])

/-- Step 2: the methods to scan, or the fatal error of the script.  Returns
the method list together with the possibly extended warning list. -/
def methodsToScan (env : ReflectionEnv) (className : String)
    (methodName : Option String) (warnings : List String) :
    Except String (List String × List String) :=
  match methodName with
  | some m => .ok ([m], warnings)
  | none =>
    match env.classes className with
    | some ci =>
      if ci.publicMethods.isEmpty then
        .ok (ci.publicMethods,
          warnings ++ ["Class " ++ className ++ " has no public methods."])
      else .ok (ci.publicMethods, warnings)
    | none =>
      .error "Error: Cannot determine methods - class could not be reflected and no methodName provided."

/-- Step 4: the area di.xml files per non-global scope; scopes with no such
file are absent from the mapping. -/
def areaDiFilesOf (fs : Fs) (modulePaths : List (String × String)) :
    List (String × List String) :=
  allScopes.filterMap (fun scope =>
    if scope == "global" then none
    else
      let files := modulePaths.filterMap (fun mp =>
        let areaDi := mp.2 ++ "/etc/" ++ scope ++ "/di.xml"
        if fs.fileExists areaDi then some areaDi else none)
      if files.isEmpty then none else some (scope, files))

/-- The scope-merge loop body: scope-specific entries replace global ones
sharing a key, by plain mapping overwrite. -/
def mergeOverwrite (base overlay : PluginMap) : PluginMap :=
  overlay.foldl (fun acc e => assocSet acc e.1 e.2) base

/-- Remove entries whose `disabled` is `"true"` or `"1"` (foreach + unset). -/
def removeDisabled (m : PluginMap) : PluginMap :=
  m.filter (fun e => !(e.2.disabled == "true" || e.2.disabled == "1"))

/-- The effective plugin mapping of one scope before disabled removal:
global entries overwritten by the scope-specific parse, when present. -/
def mergedFor (fs : Fs) (globalPlugins : PluginMap)
    (areaDiFiles : List (String × List String)) (scope : String) : PluginMap :=
  if scope != "global" then
    match areaDiFiles.find? (fun e => e.1 == scope) with
    | some e => mergeOverwrite globalPlugins (parsePluginsFromFiles fs e.2)
    | none => globalPlugins
  else globalPlugins

/-- Hierarchy filtering of one scope: keep entries whose normalized target
is in the hierarchy, normalizing the `targetType` of each kept entry. -/
def matchedFor (normalizedHierarchy : List String) (effectivePlugins : PluginMap) :
    List PluginDecl :=
  effectivePlugins.filterMap (fun e =>
    let normalizedTarget := ltrimBackslash e.2.targetType
    if normalizedHierarchy.contains normalizedTarget then
      some { e.2 with targetType := normalizedTarget }
    else none)

/-- Step 5: the per-scope matched plugin lists; scopes with no match are
omitted (foreach with conditional insertion as `List.filterMap`). -/
def perScopeMatchedOf (fs : Fs) (globalPlugins : PluginMap)
    (areaDiFiles : List (String × List String))
    (normalizedHierarchy : List String) : List (String × List PluginDecl) :=
  allScopes.filterMap (fun scope =>
    let effectivePlugins :=
      removeDisabled (mergedFor fs globalPlugins areaDiFiles scope)
    let matched := matchedFor normalizedHierarchy effectivePlugins
    if matched.isEmpty then none else some (scope, matched))

/-- One entry of `methodResults` in all-methods mode (declared early so the
fold step of the orchestrator can name it). -/
structure MethodResult where
  scopeResults : List (String × ScopeResult)
  totalPluginCount : Nat
deriving DecidableEq, Repr

/-- Body of the all-methods loop of the orchestrator: skip methods with no
scope results, otherwise append the method entry and add its total. -/
def methodFoldStep (env : ReflectionEnv)
    (perScopeMatchedPlugins : List (String × List PluginDecl)) (className : String)
    (modulePaths : List (String × String)) (magentoRoot : String)
    (acc : List (String × MethodResult) × Nat) (method : String) :
    List (String × MethodResult) × Nat :=
  let scopeResults :=
    analyzeMethod env method perScopeMatchedPlugins className modulePaths magentoRoot
  if scopeResults.isEmpty then acc
  else
    let methodTotal := scopeResults.foldl (fun t sr => t + sr.2.pluginCount) 0
    (acc.1 ++ [(method, { scopeResults := scopeResults, totalPluginCount := methodTotal })],
     acc.2 + methodTotal)

/-- Single-method output shape. -/
structure SingleOutput where
  targetClass : String
  targetMethod : String
  classHierarchy : List String
  scopeResults : List (String × ScopeResult)
  totalPluginCount : Nat
  warnings : List String
deriving DecidableEq, Repr

/-- All-methods output shape. -/
structure AllOutput where
  targetClass : String
  classHierarchy : List String
  methodResults : List (String × MethodResult)
  methodsChecked : Nat
  methodsWithPlugins : Nat
  totalPluginCount : Nat
  warnings : List String
deriving DecidableEq, Repr

/-- The JSON document the script emits, in either mode. -/
inductive Output where
  | single : SingleOutput → Output
  | allMethods : AllOutput → Output
deriving DecidableEq, Repr

/-- All scope-result lists contained in an output, with their scopes. -/
def Output.scopeResultsAll : Output → List (String × ScopeResult)
  | .single o => o.scopeResults
  | .allMethods o => (o.methodResults.map (fun mr => mr.2.scopeResults)).flatten

/-- Steps 3 to 5 combined: the per-scope matched plugin lists of a request. -/
def perScopeOf (fs : Fs) (env : ReflectionEnv) (magentoRoot className : String)
    (modulePaths : List (String × String)) : List (String × List PluginDecl) :=
  perScopeMatchedOf fs
    (parsePluginsFromFiles fs (collectDiXmlFiles fs modulePaths magentoRoot "global"))
    (areaDiFilesOf fs modulePaths)
    ((hierarchyAndWarnings env className).1.map ltrimBackslash)

/-- The whole script: steps 1 to 6, `Except.error` modelling `exit(1)`. -/
def runScript (fs : Fs) (env : ReflectionEnv) (magentoRoot className : String)
    (methodName : Option String) (modulePaths : List (String × String)) :
    Except String Output :=
  match methodsToScan env className methodName (hierarchyAndWarnings env className).2 with
  | .error e => .error e
  | .ok ms =>
    match methodName with
    | some m =>
      .ok (.single
        { targetClass := ltrimBackslash className
          targetMethod := m
          classHierarchy := (hierarchyAndWarnings env className).1.map ltrimBackslash
          scopeResults := analyzeMethod env m
            (perScopeOf fs env magentoRoot className modulePaths) className
            modulePaths magentoRoot
          totalPluginCount :=
            (analyzeMethod env m (perScopeOf fs env magentoRoot className modulePaths)
              className modulePaths magentoRoot).foldl
              (fun acc sr => acc + sr.2.pluginCount) 0
          warnings := ms.2 })
    | none =>
      .ok (.allMethods
        { targetClass := ltrimBackslash className
          classHierarchy := (hierarchyAndWarnings env className).1.map ltrimBackslash
          methodResults := (ms.1.foldl
            (methodFoldStep env (perScopeOf fs env magentoRoot className modulePaths)
              className modulePaths magentoRoot) ([], 0)).1
          methodsChecked := ms.1.length
          methodsWithPlugins := (ms.1.foldl
            (methodFoldStep env (perScopeOf fs env magentoRoot className modulePaths)
              className modulePaths magentoRoot) ([], 0)).1.length
          totalPluginCount := (ms.1.foldl
            (methodFoldStep env (perScopeOf fs env magentoRoot className modulePaths)
              className modulePaths magentoRoot) ([], 0)).2
          warnings := ms.2 })

/-! ### Concrete fixtures (one module, one target class, one plugin)

`fsA` holds a global di.xml declaring plugin `p` on target `T` with type
`PClass` and sortOrder 10, and a frontend di.xml redeclaring the same key
with `disabled="1"` and no type.  `envA` reflects `T` (one public method
`doIt`) and `PClass` (an `aroundDoIt` hook). -/

def fsA : Fs where
  fileExists := fun p => p == "/m/a/etc/di.xml" || p == "/m/a/etc/frontend/di.xml"
  loadXml := fun p =>
    if p == "/m/a/etc/di.xml" then
      some [⟨"T", [⟨"p", "PClass", some 10, ""⟩]⟩]
    else if p == "/m/a/etc/frontend/di.xml" then
      some [⟨"T", [⟨"p", "", none, "1"⟩]⟩]
    else none

def envA : ReflectionEnv where
  classes := fun c =>
    if c == "T" then some ⟨[], [], ["doIt"], []⟩
    else if c == "PClass" then some ⟨[], [], [], ["aroundDoIt"]⟩
    else none

def modsA : List (String × String) := [("Mod_A", "/m/a")]

/-- A filesystem with no files at all. -/
def fs0 : Fs where
  fileExists := fun _ => false
  loadXml := fun _ => none

/-- A reflection oracle for which every class fails to load. -/
def envNone : ReflectionEnv where
  classes := fun _ => none

/-- One file containing two plugin elements sharing name and targetType:
the first with full attributes, the second with only sortOrder. -/
def fsB : Fs where
  fileExists := fun p => p == "b.xml"
  loadXml := fun p =>
    if p == "b.xml" then
      some [⟨"T", [⟨"p", "PClass", some 5, "false"⟩, ⟨"p", "", some 20, ""⟩]⟩]
    else none

/-- An around-hook plugin with sortOrder 10. -/
def p1Around : FilteredPlugin :=
  { pluginName := "P1", pluginType := "P1Class", targetType := "T", sortOrder := 10
    disabled := "", sourceFile := "f"
    methods := { before := none, around := some "aroundM", after := none }
    reflectionError := none, module := none, scope := "global" }

/-- An around-hook plugin with sortOrder 20. -/
def p2Around : FilteredPlugin :=
  { pluginName := "P2", pluginType := "P2Class", targetType := "T", sortOrder := 20
    disabled := "", sourceFile := "f"
    methods := { before := none, around := some "aroundM", after := none }
    reflectionError := none, module := none, scope := "global" }

/-- A reflection oracle for two plugin classes with before/after hooks. -/
def envW : ReflectionEnv where
  classes := fun c =>
    if c == "W1" then some ⟨[], [], [], ["beforeDoIt"]⟩
    else if c == "W2" then some ⟨[], [], [], ["beforeDoIt", "afterDoIt"]⟩
    else none

/-- First of two declarations sharing sortOrder 10 (tie, parse order w1 first). -/
def declW1 : PluginDecl :=
  { pluginName := "w1", pluginType := "W1", targetType := "T", sortOrder := 10
    disabled := "", sourceFile := "f1" }

/-- Second of two declarations sharing sortOrder 10. -/
def declW2 : PluginDecl :=
  { pluginName := "w2", pluginType := "W2", targetType := "T", sortOrder := 10
    disabled := "", sourceFile := "f2" }

/-- The scope result `analyzeMethod` produces for the tie fixture. -/
def srW : ScopeResult :=
  { plugins :=
      [{ pluginName := "w1", pluginType := "W1", targetType := "T", sortOrder := 10
         disabled := "", sourceFile := "f1"
         methods := { before := some "beforeDoIt", around := none, after := none }
         reflectionError := none, module := none, scope := "global" },
       { pluginName := "w2", pluginType := "W2", targetType := "T", sortOrder := 10
         disabled := "", sourceFile := "f2"
         methods := { before := some "beforeDoIt", around := none, after := some "afterDoIt" }
         reflectionError := none, module := none, scope := "global" }]
    executionOrder :=
      [{ step := "before", pluginName := some "w1", cls := "W1",
         method := "beforeDoIt", sortOrder := some 10 },
       { step := "before", pluginName := some "w2", cls := "W2",
         method := "beforeDoIt", sortOrder := some 10 },
       { step := "original", pluginName := none, cls := "T", method := "doIt",
         sortOrder := none },
       { step := "after", pluginName := some "w2", cls := "W2",
         method := "afterDoIt", sortOrder := some 10 }]
    pluginCount := 2 }

/-- A declaration with empty pluginType, for the reflection-fallback claim. -/
def declNoType : PluginDecl :=
  { pluginName := "p", pluginType := "", targetType := "T", sortOrder := 0
    disabled := "", sourceFile := "f" }

/-- A declaration whose pluginType is not loadable in `envNone`. -/
def declBadType : PluginDecl :=
  { pluginName := "q", pluginType := "Missing", targetType := "T", sortOrder := 3
    disabled := "", sourceFile := "f" }

/-! ### Observation accessors on outputs (used to state concrete scenarios) -/

/-- The scope names of a single-method result, in order. -/
def singleScopes (r : Except String Output) : List String :=
  match r with
  | .ok (.single s) => s.scopeResults.map (fun e => e.1)
  | _ => []

/-- The scope-result list of a single-method result. -/
def singleScopeResults (r : Except String Output) : List (String × ScopeResult) :=
  match r with
  | .ok (.single s) => s.scopeResults
  | _ => []

/-- The total plugin count of a single-method result. -/
def singleTotal (r : Except String Output) : Nat :=
  match r with
  | .ok (.single s) => s.totalPluginCount
  | _ => 0

/-- The plugin names reported for one scope of a single-method result. -/
def singleScopePluginNames (r : Except String Output) (scope : String) : List String :=
  match r with
  | .ok (.single s) =>
    match s.scopeResults.find? (fun e => e.1 == scope) with
    | some e => e.2.plugins.map (fun p => p.pluginName)
    | none => []
  | _ => []

/-! ### Association-list lemmas -/

theorem assocGet_nil (k : String) : assocGet [] k = none := rfl

theorem assocGet_cons (e : String × PluginDecl) (t : PluginMap) (k : String) :
    assocGet (e :: t) k = if e.1 == k then some e.2 else assocGet t k := by
  by_cases h : e.1 == k
  · simp [assocGet, List.find?_cons_of_pos, h]
  · simp [assocGet, List.find?_cons_of_neg, h]

theorem assocGet_assocSet_self (m : PluginMap) (k : String) (v : PluginDecl) :
    assocGet (assocSet m k v) k = some v := by
  induction m with
  | nil => simp [assocSet, assocGet_cons]
  | cons e t ih =>
    by_cases h : e.1 == k
    · simp [assocSet, h, assocGet_cons]
    · simp [assocSet, h, assocGet_cons, ih]

theorem assocGet_assocSet_ne (m : PluginMap) (k k' : String) (v : PluginDecl)
    (h : (k == k') = false) :
    assocGet (assocSet m k v) k' = assocGet m k' := by
  induction m with
  | nil => simp [assocSet, assocGet_cons, assocGet_nil, h]
  | cons e t ih =>
    by_cases he : e.1 == k
    · have hek : e.1 = k := by simpa using he
      simp [assocSet, he, assocGet_cons, h, hek]
    · simp [assocSet, he, assocGet_cons, ih]

theorem mem_assocSet (m : PluginMap) (k : String) (v : PluginDecl)
    (x : String × PluginDecl) (hx : x ∈ assocSet m k v) : x ∈ m ∨ x = (k, v) := by
  induction m with
  | nil =>
    simp [assocSet] at hx
    simp [hx]
  | cons e t ih =>
    by_cases he : e.1 == k
    · simp only [assocSet, he, if_pos] at hx
      rcases List.mem_cons.mp hx with h | h
      · right; exact h
      · left; exact List.mem_cons_of_mem _ h
    · simp only [assocSet, he, if_neg, Bool.false_eq_true, not_false_iff] at hx
      rcases List.mem_cons.mp hx with h | h
      · left; simp [h]
      · rcases ih h with h' | h'
        · left; exact List.mem_cons_of_mem _ h'
        · right; exact h'

/-- Keys held by a mapping, in order. -/
def NodupKeys (m : PluginMap) : Prop := (m.map Prod.fst).Nodup

theorem keys_assocSet (m : PluginMap) (k : String) (v : PluginDecl) :
    (assocSet m k v).map Prod.fst =
      if m.any (fun e => e.1 == k) then m.map Prod.fst else m.map Prod.fst ++ [k] := by
  induction m with
  | nil => simp [assocSet]
  | cons e t ih =>
    by_cases he : e.1 == k
    · have hek : e.1 = k := by simpa using he
      simp [assocSet, he, List.any_cons, hek]
    · simp only [assocSet, he, if_neg, Bool.false_eq_true, not_false_iff,
        List.map_cons, List.any_cons, Bool.false_or, ih]
      split <;> simp

theorem nodupKeys_assocSet (m : PluginMap) (k : String) (v : PluginDecl)
    (h : NodupKeys m) : NodupKeys (assocSet m k v) := by
  unfold NodupKeys at *
  rw [keys_assocSet]
  split
  · exact h
  · rename_i hany
    have hk : k ∉ m.map Prod.fst := by
      intro hk
      rcases List.mem_map.mp hk with ⟨e, he, hek⟩
      have hany2 : m.any (fun e => e.1 == k) = true := by
        refine List.any_eq_true.mpr ⟨e, he, ?_⟩
        simpa using hek
      simp [hany2] at hany
    simp [List.nodup_append, h, hk]

/-- Folding a map-preserving step keeps a mapping invariant. -/
theorem foldl_preserve {α : Type} {P : PluginMap → Prop} {f : PluginMap → α → PluginMap}
    (hf : ∀ m x, P m → P (f m x)) : ∀ (l : List α) (m : PluginMap), P m → P (l.foldl f m)
  | [], _, h => h
  | x :: t, m, h => foldl_preserve hf t (f m x) (hf m x h)

theorem nodupKeys_parsePluginNode (plugins : PluginMap) (diFile targetType : String)
    (node : PluginNode) (h : NodupKeys plugins) :
    NodupKeys (parsePluginNode plugins diFile targetType node) := by
  unfold parsePluginNode
  repeat' split
  all_goals first
  | exact h
  | exact nodupKeys_assocSet _ _ _ h

theorem nodupKeys_parseTypeNode (plugins : PluginMap) (diFile : String) (t : TypeNode)
    (h : NodupKeys plugins) : NodupKeys (parseTypeNode plugins diFile t) := by
  unfold parseTypeNode
  split
  · exact h
  · exact foldl_preserve (fun m x hm => nodupKeys_parsePluginNode m diFile t.name x hm)
      t.plugins plugins h

theorem nodupKeys_parseFile (fs : Fs) (plugins : PluginMap) (diFile : String)
    (h : NodupKeys plugins) : NodupKeys (parseFile fs plugins diFile) := by
  unfold parseFile
  split
  · exact h
  · exact foldl_preserve (fun m x hm => nodupKeys_parseTypeNode m diFile x hm) _ plugins h

theorem nodupKeys_parsePluginsFromFiles (fs : Fs) (diFiles : List String) :
    NodupKeys (parsePluginsFromFiles fs diFiles) := by
  unfold parsePluginsFromFiles
  exact foldl_preserve (fun m x hm => nodupKeys_parseFile fs m x hm) diFiles []
    (by simp [NodupKeys])

/-! ### Scope-merge lemmas -/

theorem mergeOverwrite_cons (base : PluginMap) (e : String × PluginDecl)
    (t : PluginMap) :
    mergeOverwrite base (e :: t) = mergeOverwrite (assocSet base e.1 e.2) t := rfl

theorem mem_mergeOverwrite (base overlay : PluginMap) (x : String × PluginDecl)
    (hx : x ∈ mergeOverwrite base overlay) : x ∈ base ∨ x ∈ overlay := by
  induction overlay generalizing base with
  | nil => exact Or.inl hx
  | cons e t ih =>
    rw [mergeOverwrite_cons] at hx
    rcases ih (assocSet base e.1 e.2) hx with h | h
    · rcases mem_assocSet _ _ _ _ h with h' | h'
      · exact Or.inl h'
      · right
        rw [h', Prod.mk.eta]
        exact List.mem_cons_self _ _
    · exact Or.inr (List.mem_cons_of_mem _ h)

theorem assocGet_mergeOverwrite_of_absent (base overlay : PluginMap) (k : String)
    (h : ∀ e ∈ overlay, (e.1 == k) = false) :
    assocGet (mergeOverwrite base overlay) k = assocGet base k := by
  induction overlay generalizing base with
  | nil => rfl
  | cons e t ih =>
    rw [mergeOverwrite_cons]
    rw [ih (assocSet base e.1 e.2) (fun x hx => h x (List.mem_cons_of_mem _ hx))]
    exact assocGet_assocSet_ne _ _ _ _ (h e (List.mem_cons_self _ _))

theorem assocGet_mergeOverwrite_of_overlay (base overlay : PluginMap) (k : String)
    (p : PluginDecl) (hnd : NodupKeys overlay) (h : assocGet overlay k = some p) :
    assocGet (mergeOverwrite base overlay) k = some p := by
  induction overlay generalizing base with
  | nil => simp [assocGet_nil] at h
  | cons e t ih =>
    rw [assocGet_cons] at h
    rw [mergeOverwrite_cons]
    by_cases he : e.1 == k
    · rw [if_pos he] at h
      have hek : e.1 = k := by simpa using he
      have hnotin : ∀ x ∈ t, (x.1 == k) = false := by
        intro x hxt
        have : e.1 ∉ t.map Prod.fst := by
          have := hnd
          unfold NodupKeys at this
          simp only [List.map_cons, List.nodup_cons] at this
          exact this.1
        rw [hek] at this
        by_cases hxk : x.1 == k
        · exact absurd (List.mem_map.mpr ⟨x, hxt, by simpa using hxk⟩) this
        · simpa using hxk
      rw [assocGet_mergeOverwrite_of_absent _ _ _ hnotin]
      rw [← h]
      rw [← hek]
      exact assocGet_assocSet_self _ _ _
    · rw [if_neg he] at h
      have hnd' : NodupKeys t := by
        have := hnd
        unfold NodupKeys at this ⊢
        simp only [List.map_cons, List.nodup_cons] at this
        exact this.2
      exact ih (assocSet base e.1 e.2) hnd' h

/-! ### Disabled-removal lemmas -/

theorem mem_removeDisabled (m : PluginMap) (x : String × PluginDecl)
    (hx : x ∈ removeDisabled m) :
    x ∈ m ∧ x.2.disabled ≠ "true" ∧ x.2.disabled ≠ "1" := by
  have h := List.mem_filter.mp hx
  refine ⟨h.1, ?_, ?_⟩ <;>
    · intro hd
      have := h.2
      simp [hd] at this

theorem assocGet_removeDisabled_some (m : PluginMap) (k : String) (p : PluginDecl)
    (h : assocGet (removeDisabled m) k = some p) :
    p.disabled ≠ "true" ∧ p.disabled ≠ "1" := by
  unfold assocGet at h
  rcases Option.map_eq_some'.mp h with ⟨e, hfind, hep⟩
  have hmem := List.mem_of_find?_eq_some hfind
  have := (mem_removeDisabled m e hmem).2
  rw [hep] at this
  exact this

/-! ### Sorting lemmas: stability and sortedness of the usort model -/

theorem filter_orderedInsert (v : Int) (p : FilteredPlugin) (l : List FilteredPlugin) :
    (List.orderedInsert pluginLE p l).filter (fun q => q.sortOrder == v) =
      if p.sortOrder == v then p :: l.filter (fun q => q.sortOrder == v)
      else l.filter (fun q => q.sortOrder == v) := by
  induction l with
  | nil => simp [List.filter_cons]
  | cons b t ih =>
    by_cases hpb : pluginLE p b
    · rw [List.orderedInsert_of_le _ _ hpb]
      simp [List.filter_cons]
    · have hrec : List.orderedInsert pluginLE p (b :: t) =
          b :: List.orderedInsert pluginLE p t := by
        simp [List.orderedInsert, hpb]
      rw [hrec, List.filter_cons, ih]
      have hbp : b.sortOrder < p.sortOrder := by
        unfold pluginLE at hpb
        omega
      by_cases hpv : p.sortOrder == v
      · have hpv' : p.sortOrder = v := by simpa using hpv
        have hbv : (b.sortOrder == v) = false := by
          have : b.sortOrder ≠ v := by omega
          simpa using this
        simp [hpv, hbv, List.filter_cons]
      · simp [hpv, List.filter_cons]

theorem filter_sortBySortOrder (v : Int) (l : List FilteredPlugin) :
    (sortBySortOrder l).filter (fun q => q.sortOrder == v) =
      l.filter (fun q => q.sortOrder == v) := by
  unfold sortBySortOrder
  induction l with
  | nil => rfl
  | cons p t ih =>
    show (List.orderedInsert pluginLE p (List.insertionSort pluginLE t)).filter _ = _
    rw [filter_orderedInsert, ih, List.filter_cons]

theorem sorted_sortBySortOrder (l : List FilteredPlugin) :
    (sortBySortOrder l).Sorted pluginLE :=
  List.sorted_insertionSort pluginLE l

/-! ### Execution-order lemmas -/

theorem collectHooks_eq (plugins : List FilteredPlugin)
    (get : FilteredPlugin → Option String) :
    collectHooks plugins get =
      (plugins.filter (fun p => (get p).isSome)).map
        (fun p =>
          { pluginName := p.pluginName, pluginType := p.pluginType,
            sortOrder := p.sortOrder, method := (get p).getD "" }) := by
  induction plugins with
  | nil => rfl
  | cons p t ih =>
    unfold collectHooks at ih ⊢
    rw [List.filterMap_cons, List.filter_cons]
    cases hg : get p <;> simp [hg, ih]

/-! ### Method-filter lemmas -/

theorem processPlugin_fallback (env : ReflectionEnv) (u : String)
    (mp : List (String × String)) (root : String) (p : PluginDecl)
    (h : phpEmpty p.pluginType = true ∨ env.classes p.pluginType = none) :
    processPlugin env u mp root p = some
      { pluginName := p.pluginName, pluginType := p.pluginType,
        targetType := p.targetType, sortOrder := p.sortOrder,
        disabled := p.disabled, sourceFile := p.sourceFile
        methods := { before := some ("before" ++ u), around := some ("around" ++ u),
                     after := some ("after" ++ u) }
        reflectionError := some
          (if phpEmpty p.pluginType then
            "Plugin " ++ p.pluginName ++ " has no type specified"
          else "Could not reflect plugin class " ++ p.pluginType)
        module := determineModule p.sourceFile mp root, scope := "" } := by
  by_cases ht : phpEmpty p.pluginType
  · simp [processPlugin, ht, FoundMethods.isEmpty]
  · rcases h with h | h
    · exact absurd h ht
    · simp [processPlugin, ht, h, FoundMethods.isEmpty]

theorem processPlugin_some_fields (env : ReflectionEnv) (u : String)
    (mp : List (String × String)) (root : String) (p : PluginDecl)
    (fp : FilteredPlugin) (h : processPlugin env u mp root p = some fp) :
    fp.pluginName = p.pluginName ∧ fp.pluginType = p.pluginType ∧
    fp.targetType = p.targetType ∧ fp.sortOrder = p.sortOrder ∧
    fp.disabled = p.disabled ∧ fp.sourceFile = p.sourceFile := by
  by_cases ht : phpEmpty p.pluginType
  · rw [processPlugin_fallback env u mp root p (Or.inl ht)] at h
    rcases Option.some.inj h with rfl
    simp
  · have ht' : phpEmpty p.pluginType = false := by simpa using ht
    cases hc : env.classes p.pluginType with
    | none =>
      rw [processPlugin_fallback env u mp root p (Or.inr hc)] at h
      rcases Option.some.inj h with rfl
      simp
    | some info =>
      simp only [processPlugin, ht', hc, Bool.not_false, if_true] at h
      repeat' split at h
      all_goals first
      | (rcases Option.some.inj h with rfl; simp)
      | cases h

theorem mem_filterPluginsByMethod (env : ReflectionEnv)
    (matched : List PluginDecl) (u : String) (mp : List (String × String))
    (root : String) (fp : FilteredPlugin) :
    fp ∈ filterPluginsByMethod env matched u mp root ↔
      ∃ p ∈ matched, processPlugin env u mp root p = some fp := by
  simp [filterPluginsByMethod, List.mem_filterMap]

/-! ### Scope-resolution lemmas -/

theorem mem_matchedFor (H : List String) (eff : PluginMap) (p : PluginDecl)
    (hp : p ∈ matchedFor H eff) :
    ∃ e ∈ eff, p = { e.2 with targetType := ltrimBackslash e.2.targetType } ∧
      H.contains (ltrimBackslash e.2.targetType) = true := by
  simp only [matchedFor] at hp
  rcases List.mem_filterMap.mp hp with ⟨e, he, heq⟩
  split at heq
  · rename_i hc
    refine ⟨e, he, (Option.some.inj heq).symm, hc⟩
  · cases heq

theorem perScopeMatchedOf_mem (fs : Fs) (g : PluginMap)
    (a : List (String × List String)) (H : List String) (scope : String)
    (matched : List PluginDecl)
    (h : (scope, matched) ∈ perScopeMatchedOf fs g a H) :
    scope ∈ allScopes ∧
    matched = matchedFor H (removeDisabled (mergedFor fs g a scope)) ∧
    matched ≠ [] := by
  simp only [perScopeMatchedOf] at h
  rcases List.mem_filterMap.mp h with ⟨s, hs, heq⟩
  split at heq
  · cases heq
  · rename_i hne
    rcases Prod.mk.inj (Option.some.inj heq) with ⟨h1, h2⟩
    subst h1
    refine ⟨hs, h2.symm, ?_⟩
    rw [← h2]
    intro hnil
    rw [hnil] at hne
    simp at hne

/-! ### Orchestrator lemmas -/

theorem analyzeMethod_mem (env : ReflectionEnv) (m : String)
    (perScope : List (String × List PluginDecl)) (cls : String)
    (mp : List (String × String)) (root : String) (scope : String) (sr : ScopeResult)
    (h : (scope, sr) ∈ analyzeMethod env m perScope cls mp root) :
    ∃ matched, (scope, matched) ∈ perScope ∧
      filterPluginsByMethod env matched (ucfirst m) mp root ≠ [] ∧
      sr.plugins = (sortBySortOrder
          (filterPluginsByMethod env matched (ucfirst m) mp root)).map
        (fun p => { p with scope := scope }) ∧
      sr.executionOrder = buildExecutionOrder sr.plugins cls m ∧
      sr.pluginCount = sr.plugins.length := by
  simp only [analyzeMethod] at h
  rcases List.mem_filterMap.mp h with ⟨sm, hsm, heq⟩
  split at heq
  · cases heq
  · rename_i hne
    rcases Prod.mk.inj (Option.some.inj heq) with ⟨h1, h2⟩
    subst h1
    refine ⟨sm.2, hsm, ?_, ?_, ?_, ?_⟩
    · intro hnil
      rw [hnil] at hne
      simp at hne
    · rw [← h2]
    · rw [← h2]
    · rw [← h2]

theorem foldl_methodFoldStep_mem (env : ReflectionEnv)
    (perScope : List (String × List PluginDecl)) (cls : String)
    (mp : List (String × String)) (root : String) :
    ∀ (methods : List String) (acc : List (String × MethodResult) × Nat)
      (e : String × MethodResult),
      e ∈ (methods.foldl (methodFoldStep env perScope cls mp root) acc).1 →
      e ∈ acc.1 ∨
        (e.1 ∈ methods ∧
         e.2.scopeResults = analyzeMethod env e.1 perScope cls mp root ∧
         e.2.totalPluginCount =
           (analyzeMethod env e.1 perScope cls mp root).foldl
             (fun t sr => t + sr.2.pluginCount) 0 ∧
         e.2.scopeResults ≠ []) := by
  intro methods
  induction methods with
  | nil =>
    intro acc e he
    exact Or.inl he
  | cons m t ih =>
    intro acc e he
    rw [List.foldl_cons] at he
    rcases ih _ e he with h | h
    · simp only [methodFoldStep] at h
      split at h
      · exact Or.inl h
      · rename_i hne
        rcases List.mem_append.mp h with h' | h'
        · exact Or.inl h'
        · right
          rcases List.mem_singleton.mp h' with rfl
          refine ⟨List.mem_cons_self _ _, rfl, rfl, ?_⟩
          intro hnil
          have hnil' : analyzeMethod env m perScope cls mp root = [] := by
            simpa using hnil
          simp [hnil'] at hne
    · exact Or.inr ⟨List.mem_cons_of_mem _ h.1, h.2⟩

theorem foldl_methodFoldStep_len (env : ReflectionEnv)
    (perScope : List (String × List PluginDecl)) (cls : String)
    (mp : List (String × String)) (root : String) :
    ∀ (methods : List String) (acc : List (String × MethodResult) × Nat),
      ((methods.foldl (methodFoldStep env perScope cls mp root) acc).1).length ≤
        acc.1.length + methods.length := by
  intro methods
  induction methods with
  | nil =>
    intro acc
    simp
  | cons m t ih =>
    intro acc
    rw [List.foldl_cons]
    calc ((t.foldl (methodFoldStep env perScope cls mp root)
            (methodFoldStep env perScope cls mp root acc m)).1).length ≤
          (methodFoldStep env perScope cls mp root acc m).1.length + t.length := ih _
      _ ≤ acc.1.length + (m :: t).length := by
          simp only [methodFoldStep]
          split
          · simp only [List.length_cons]
            omega
          · simp only [List.length_append, List.length_cons, List.length_nil]
            omega

theorem foldl_methodFoldStep_sum (env : ReflectionEnv)
    (perScope : List (String × List PluginDecl)) (cls : String)
    (mp : List (String × String)) (root : String) :
    ∀ (methods : List String) (acc : List (String × MethodResult) × Nat),
      acc.2 = (acc.1.map (fun e => e.2.totalPluginCount)).sum →
      (methods.foldl (methodFoldStep env perScope cls mp root) acc).2 =
        (((methods.foldl (methodFoldStep env perScope cls mp root) acc).1).map
          (fun e => e.2.totalPluginCount)).sum := by
  intro methods
  induction methods with
  | nil =>
    intro acc hacc
    exact hacc
  | cons m t ih =>
    intro acc hacc
    rw [List.foldl_cons]
    refine ih _ ?_
    simp only [methodFoldStep]
    split
    · exact hacc
    · simp [List.map_append, List.sum_append, hacc]

theorem foldl_add_pluginCount (l : List (String × ScopeResult)) :
    ∀ n : Nat, l.foldl (fun acc sr => acc + sr.2.pluginCount) n =
      n + (l.map (fun sr => sr.2.pluginCount)).sum := by
  induction l with
  | nil => intro n; simp
  | cons sr t ih =>
    intro n
    rw [List.foldl_cons, ih]
    simp [Nat.add_assoc]

/-! ### Top-level unfolding lemmas -/

theorem runScript_some_eq (fs : Fs) (env : ReflectionEnv) (root cls m : String)
    (mp : List (String × String)) :
    runScript fs env root cls (some m) mp = .ok (.single
      { targetClass := ltrimBackslash cls
        targetMethod := m
        classHierarchy := (hierarchyAndWarnings env cls).1.map ltrimBackslash
        scopeResults := analyzeMethod env m (perScopeOf fs env root cls mp) cls mp root
        totalPluginCount :=
          (analyzeMethod env m (perScopeOf fs env root cls mp) cls mp root).foldl
            (fun acc sr => acc + sr.2.pluginCount) 0
        warnings := (hierarchyAndWarnings env cls).2 }) := rfl

theorem runScript_none_eq (fs : Fs) (env : ReflectionEnv) (root cls : String)
    (mp : List (String × String)) (ms : List String × List String)
    (hms : methodsToScan env cls none (hierarchyAndWarnings env cls).2 = .ok ms) :
    runScript fs env root cls none mp = .ok (.allMethods
      { targetClass := ltrimBackslash cls
        classHierarchy := (hierarchyAndWarnings env cls).1.map ltrimBackslash
        methodResults := (ms.1.foldl
          (methodFoldStep env (perScopeOf fs env root cls mp) cls mp root) ([], 0)).1
        methodsChecked := ms.1.length
        methodsWithPlugins := (ms.1.foldl
          (methodFoldStep env (perScopeOf fs env root cls mp) cls mp root) ([], 0)).1.length
        totalPluginCount := (ms.1.foldl
          (methodFoldStep env (perScopeOf fs env root cls mp) cls mp root) ([], 0)).2
        warnings := ms.2 }) := by
  simp only [runScript, hms]

theorem runScript_none_error (fs : Fs) (env : ReflectionEnv) (root cls : String)
    (mp : List (String × String)) (h : env.classes cls = none) :
    runScript fs env root cls none mp =
      .error "Error: Cannot determine methods - class could not be reflected and no methodName provided." := by
  simp only [runScript, methodsToScan, h]

theorem dropWhile_idem (p : Char → Bool) (l : List Char) :
    (l.dropWhile p).dropWhile p = l.dropWhile p := by
  induction l with
  | nil => rfl
  | cons c t ih =>
    by_cases hc : p c
    · simp [List.dropWhile_cons, hc, ih]
    · simp [List.dropWhile_cons, hc]

theorem ltrimBackslash_idem (s : String) :
    ltrimBackslash (ltrimBackslash s) = ltrimBackslash s :=
  congrArg String.mk (dropWhile_idem _ s.data)

/-- Every scope entry of the output of either mode comes from `analyzeMethod` on the
per-scope matched lists of the request. -/
theorem runScript_scopeResults_mem (fs : Fs) (env : ReflectionEnv)
    (root cls : String) (mn : Option String) (mp : List (String × String))
    (out : Output) (h : runScript fs env root cls mn mp = .ok out)
    (scope : String) (sr : ScopeResult)
    (hmem : (scope, sr) ∈ out.scopeResultsAll) :
    ∃ m, (scope, sr) ∈
      analyzeMethod env m (perScopeOf fs env root cls mp) cls mp root := by
  cases mn with
  | some m =>
    rw [runScript_some_eq] at h
    rcases Except.ok.inj h with rfl
    simp only [Output.scopeResultsAll] at hmem
    exact ⟨m, hmem⟩
  | none =>
    cases hms : methodsToScan env cls none (hierarchyAndWarnings env cls).2 with
    | error e =>
      simp only [runScript, hms] at h
      cases h
    | ok ms =>
      rw [runScript_none_eq fs env root cls mp ms hms] at h
      rcases Except.ok.inj h with rfl
      simp only [Output.scopeResultsAll] at hmem
      rcases List.mem_flatten.mp hmem with ⟨l, hl, hsl⟩
      rcases List.mem_map.mp hl with ⟨mr, hmr, rfl⟩
      rcases foldl_methodFoldStep_mem env (perScopeOf fs env root cls mp) cls mp root
          ms.1 ([], 0) mr hmr with h' | h'
      · cases h'
      · rw [h'.2.1] at hsl
        exact ⟨mr.1, hsl⟩

/-- With no scope matching anything, the all-methods fold is the identity. -/
theorem foldl_methodFoldStep_id (env : ReflectionEnv) (cls : String)
    (mp : List (String × String)) (root : String) :
    ∀ (methods : List String) (acc : List (String × MethodResult) × Nat),
      methods.foldl (methodFoldStep env [] cls mp root) acc = acc := by
  intro methods
  induction methods with
  | nil => intro acc; rfl
  | cons m t ih =>
    intro acc
    rw [List.foldl_cons]
    have hstep : methodFoldStep env [] cls mp root acc m = acc := rfl
    rw [hstep, ih]

/-- If no parsed declaration in any scope targets a hierarchy member, no
scope yields matches. -/
theorem perScopeMatchedOf_eq_nil (fs : Fs) (G : PluginMap)
    (A : List (String × List String)) (H : List String)
    (hG : ∀ e ∈ G, H.contains (ltrimBackslash e.2.targetType) = false)
    (hA : ∀ s files, (s, files) ∈ A → ∀ e ∈ parsePluginsFromFiles fs files,
      H.contains (ltrimBackslash e.2.targetType) = false) :
    perScopeMatchedOf fs G A H = [] := by
  unfold perScopeMatchedOf
  rw [List.filterMap_eq_nil_iff]
  intro scope hscope
  have hm : matchedFor H (removeDisabled (mergedFor fs G A scope)) = [] := by
    unfold matchedFor
    rw [List.filterMap_eq_nil_iff]
    intro e he
    have hcontains : H.contains (ltrimBackslash e.2.targetType) = false := by
      have hmem := (mem_removeDisabled _ e he).1
      unfold mergedFor at hmem
      split at hmem
      · split at hmem
        · rename_i entry hfind
          rcases mem_mergeOverwrite _ _ e hmem with h | h
          · exact hG e h
          · have hin : entry ∈ A := List.mem_of_find?_eq_some hfind
            have hin' : (entry.1, entry.2) ∈ A := by
              rw [Prod.mk.eta]
              exact hin
            exact hA entry.1 entry.2 hin' e h
        · exact hG e hmem
      · exact hG e hmem
    have hnot : ltrimBackslash e.2.targetType ∉ H := by simpa using hcontains
    simp [hnot]
  simp [hm]

/-! ### Claim theorems -/

/-- C9: a `<plugin>` element whose name attribute is the literal string "0"
is discarded exactly as if it had no name, and a `<type>` element whose
name attribute is "0" is skipped with all its plugin children, because the
emptiness test used treats "0" as empty. -/
theorem claim_C9 :
    (∀ (plugins : PluginMap) (diFile targetType : String) (node : PluginNode),
      node.name = "0" →
      parsePluginNode plugins diFile targetType node = plugins) ∧
    (∀ (plugins : PluginMap) (diFile : String) (t : TypeNode),
      t.name = "0" →
      parseTypeNode plugins diFile t = plugins) := by
  constructor
  · intro plugins diFile targetType node h
    unfold parsePluginNode
    rw [h]
    rw [if_pos (by decide : phpEmpty "0" = true)]
  · intro plugins diFile t h
    unfold parseTypeNode
    rw [h]
    rw [if_pos (by decide : phpEmpty "0" = true)]

/-- Witness for C9: a fully attributed plugin named "0" and a type named
"0" with a named plugin child both parse to nothing. -/
theorem claim_C9_witness :
    parsePluginNode [] "f.xml" "T" ⟨"0", "X", some 1, ""⟩ = [] ∧
    parseTypeNode [] "f.xml" ⟨"0", [⟨"p", "X", some 1, ""⟩]⟩ = [] :=
  ⟨claim_C9.1 [] "f.xml" "T" ⟨"0", "X", some 1, ""⟩ rfl,
   claim_C9.2 [] "f.xml" ⟨"0", [⟨"p", "X", some 1, ""⟩]⟩ rfl⟩

/-- C2: when a plugin key is already present and the type of the new element is
empty, the merged entry keeps the previous pluginType, takes the new
disabled only if that attribute is specified, takes the new sortOrder only
if specified, and always takes the new sourceFile; parsing one file whose
two plugin elements share name and targetType, the first with full
attributes and the second with only sortOrder, yields one entry with the
pluginType of the first and sortOrder of the second. -/
theorem claim_C2 :
    (∀ (plugins : PluginMap) (diFile targetType : String) (node : PluginNode)
       (old : PluginDecl),
      phpEmpty node.name = false →
      phpEmpty node.type = true →
      assocGet plugins (targetType ++ "::" ++ node.name) = some old →
      assocGet (parsePluginNode plugins diFile targetType node)
          (targetType ++ "::" ++ node.name) = some
        { pluginName := old.pluginName
          pluginType := old.pluginType
          targetType := old.targetType
          sortOrder := node.sortOrder.getD old.sortOrder
          disabled := if node.disabled != "" then node.disabled else old.disabled
          sourceFile := diFile }) ∧
    parsePluginsFromFiles fsB ["b.xml"] =
      [("T::p",
        { pluginName := "p", pluginType := "PClass", targetType := "T",
          sortOrder := 20, disabled := "false", sourceFile := "b.xml" })] := by
  constructor
  · intro plugins diFile targetType node old hname htype hget
    unfold parsePluginNode
    rw [if_neg (by simp [hname])]
    simp only [hget, htype, if_true]
    have : (node.sortOrder.getD old.sortOrder) =
        (match node.sortOrder with
         | some s => s
         | none => old.sortOrder) := by
      cases node.sortOrder <;> rfl
    rw [this]
    exact assocGet_assocSet_self _ _ _
  · decide

/-- Witness for C2: a refinement element carrying only sortOrder updates
sortOrder and sourceFile, keeps pluginType and disabled. -/
theorem claim_C2_witness :
    assocGet
      (parsePluginNode
        [("T::p", { pluginName := "p", pluginType := "PClass", targetType := "T",
                    sortOrder := 5, disabled := "false", sourceFile := "a.xml" })]
        "c.xml" "T" ⟨"p", "", some 20, ""⟩) "T::p" = some
      { pluginName := "p", pluginType := "PClass", targetType := "T",
        sortOrder := 20, disabled := "false", sourceFile := "c.xml" } :=
  claim_C2.1
    [("T::p", { pluginName := "p", pluginType := "PClass", targetType := "T",
                sortOrder := 5, disabled := "false", sourceFile := "a.xml" })]
    "c.xml" "T" ⟨"p", "", some 20, ""⟩
    { pluginName := "p", pluginType := "PClass", targetType := "T",
      sortOrder := 5, disabled := "false", sourceFile := "a.xml" }
    (by decide) (by decide) (by decide)

/-- C5: a plugin whose pluginType is empty, or whose type cannot be
reflected, is kept in the filtered list with a reflectionError recorded and
all three hook kinds assumed present under their synthesized names. -/
theorem claim_C5 (env : ReflectionEnv) (u : String) (mp : List (String × String))
    (root : String) (matched : List PluginDecl) (p : PluginDecl)
    (hfail : phpEmpty p.pluginType = true ∨ env.classes p.pluginType = none)
    (hp : p ∈ matched) :
    ∃ fp ∈ filterPluginsByMethod env matched u mp root,
      fp.pluginName = p.pluginName ∧ fp.pluginType = p.pluginType ∧
      fp.sortOrder = p.sortOrder ∧
      fp.reflectionError = some
        (if phpEmpty p.pluginType then
          "Plugin " ++ p.pluginName ++ " has no type specified"
        else "Could not reflect plugin class " ++ p.pluginType) ∧
      fp.methods = { before := some ("before" ++ u), around := some ("around" ++ u),
                     after := some ("after" ++ u) } := by
  refine ⟨_, (mem_filterPluginsByMethod env matched u mp root _).mpr
    ⟨p, hp, processPlugin_fallback env u mp root p hfail⟩, rfl, rfl, rfl, rfl, rfl⟩

/-- Witness for C5: a typeless plugin in a one-element matched list is kept
with all three hooks and an error. -/
theorem claim_C5_witness :
    ∃ fp ∈ filterPluginsByMethod envNone [declNoType] "DoIt" [] "/r",
      fp.pluginName = declNoType.pluginName ∧ fp.pluginType = declNoType.pluginType ∧
      fp.sortOrder = declNoType.sortOrder ∧
      fp.reflectionError = some
        (if phpEmpty declNoType.pluginType then
          "Plugin " ++ declNoType.pluginName ++ " has no type specified"
        else "Could not reflect plugin class " ++ declNoType.pluginType) ∧
      fp.methods = { before := some ("before" ++ "DoIt"), around := some ("around" ++ "DoIt"),
                     after := some ("after" ++ "DoIt") } :=
  claim_C5 envNone "DoIt" [] "/r" [declNoType] declNoType (Or.inl (by decide))
    (List.mem_singleton.mpr rfl)

/-- C6: when the target class cannot be reflected and no method name was
supplied, the script exits with an error; with a method name supplied the
same failure is only a warning and analysis proceeds on the literal name. -/
theorem claim_C6 (fs : Fs) (env : ReflectionEnv) (root cls : String)
    (mp : List (String × String)) (h : env.classes cls = none) :
    runScript fs env root cls none mp =
      .error "Error: Cannot determine methods - class could not be reflected and no methodName provided." ∧
    ∀ m : String, ∃ out : SingleOutput,
      runScript fs env root cls (some m) mp = .ok (.single out) ∧
      out.warnings = ["Could not reflect class " ++ cls
        ++ ". Analysis will use the literal class name only."] ∧
      out.classHierarchy = [ltrimBackslash cls] := by
  refine ⟨runScript_none_error fs env root cls mp h, ?_⟩
  intro m
  refine ⟨_, runScript_some_eq fs env root cls m mp, ?_, ?_⟩
  · simp [hierarchyAndWarnings, h]
  · simp only [hierarchyAndWarnings, h, List.map_cons]
    simp [ltrimBackslash_idem]

/-- Witness for C6: a class unknown to the reflection oracle. -/
theorem claim_C6_witness :
    runScript fs0 envNone "/r" "X" none [] =
      .error "Error: Cannot determine methods - class could not be reflected and no methodName provided." ∧
    ∃ out : SingleOutput,
      runScript fs0 envNone "/r" "X" (some "m") [] = .ok (.single out) ∧
      out.warnings = ["Could not reflect class " ++ "X"
        ++ ". Analysis will use the literal class name only."] ∧
      out.classHierarchy = ["X"] := by
  refine ⟨(claim_C6 fs0 envNone "/r" "X" [] rfl).1, ?_⟩
  rcases (claim_C6 fs0 envNone "/r" "X" [] rfl).2 "m" with ⟨out, h1, h2, h3⟩
  exact ⟨out, h1, h2, by rw [h3]; decide⟩

/-- C1: the synthesized execution order is exactly the before steps in list
order, the around (entering) steps in list order, one original step with
null pluginName and sortOrder, the around (exiting) steps in reverse order,
and the after steps in list order; for around plugins P1 (sortOrder 10) and
P2 (sortOrder 20), P1 enters before P2 and P2 exits before P1. -/
theorem claim_C1 :
    (∀ (plugins : List FilteredPlugin) (cls m : String),
      buildExecutionOrder plugins cls m =
        (plugins.filter (fun p => p.methods.before.isSome)).map
          (fun p => { step := "before", pluginName := some p.pluginName,
                      cls := p.pluginType, method := p.methods.before.getD "",
                      sortOrder := some p.sortOrder }) ++
        (plugins.filter (fun p => p.methods.around.isSome)).map
          (fun p => { step := "around (entering)", pluginName := some p.pluginName,
                      cls := p.pluginType, method := p.methods.around.getD "",
                      sortOrder := some p.sortOrder }) ++
        [{ step := "original", pluginName := none, cls := cls, method := m,
           sortOrder := none }] ++
        ((plugins.filter (fun p => p.methods.around.isSome)).reverse).map
          (fun p => { step := "around (exiting)", pluginName := some p.pluginName,
                      cls := p.pluginType, method := p.methods.around.getD "",
                      sortOrder := some p.sortOrder }) ++
        (plugins.filter (fun p => p.methods.after.isSome)).map
          (fun p => { step := "after", pluginName := some p.pluginName,
                      cls := p.pluginType, method := p.methods.after.getD "",
                      sortOrder := some p.sortOrder })) ∧
    (∀ (plugins : List FilteredPlugin) (cls m : String),
      (buildExecutionOrder plugins cls m).filter (fun s => s.step == "original") =
        [{ step := "original", pluginName := none, cls := cls, method := m,
           sortOrder := none }]) ∧
    buildExecutionOrder [p1Around, p2Around] "C" "mm" =
      [{ step := "around (entering)", pluginName := some "P1", cls := "P1Class",
         method := "aroundM", sortOrder := some 10 },
       { step := "around (entering)", pluginName := some "P2", cls := "P2Class",
         method := "aroundM", sortOrder := some 20 },
       { step := "original", pluginName := none, cls := "C", method := "mm",
         sortOrder := none },
       { step := "around (exiting)", pluginName := some "P2", cls := "P2Class",
         method := "aroundM", sortOrder := some 20 },
       { step := "around (exiting)", pluginName := some "P1", cls := "P1Class",
         method := "aroundM", sortOrder := some 10 }] := by
  have hstruct : ∀ (plugins : List FilteredPlugin) (cls m : String),
      buildExecutionOrder plugins cls m =
        (plugins.filter (fun p => p.methods.before.isSome)).map
          (fun p => { step := "before", pluginName := some p.pluginName,
                      cls := p.pluginType, method := p.methods.before.getD "",
                      sortOrder := some p.sortOrder }) ++
        (plugins.filter (fun p => p.methods.around.isSome)).map
          (fun p => { step := "around (entering)", pluginName := some p.pluginName,
                      cls := p.pluginType, method := p.methods.around.getD "",
                      sortOrder := some p.sortOrder }) ++
        [{ step := "original", pluginName := none, cls := cls, method := m,
           sortOrder := none }] ++
        ((plugins.filter (fun p => p.methods.around.isSome)).reverse).map
          (fun p => { step := "around (exiting)", pluginName := some p.pluginName,
                      cls := p.pluginType, method := p.methods.around.getD "",
                      sortOrder := some p.sortOrder }) ++
        (plugins.filter (fun p => p.methods.after.isSome)).map
          (fun p => { step := "after", pluginName := some p.pluginName,
                      cls := p.pluginType, method := p.methods.after.getD "",
                      sortOrder := some p.sortOrder }) := by
    intro plugins cls m
    simp [buildExecutionOrder, collectHooks_eq, mkHookStep, List.map_map,
      List.map_reverse, Function.comp_def]
  refine ⟨hstruct, ?_, by decide⟩
  intro plugins cls m
  rw [hstruct]
  simp [List.filter_append, List.filter_map, Function.comp, List.filter_reverse,
    List.filter_cons]

/-- C8: in every scope result the plugins array is sorted ascending by sortOrder,
and the sort is stable: for each sortOrder value, the plugins carrying it
appear in their prior (parse) relative order, i.e. in the order of the
method-filtered list before sorting. -/
theorem claim_C8 :
    (∀ (env : ReflectionEnv) (m : String)
       (perScope : List (String × List PluginDecl)) (cls : String)
       (mp : List (String × String)) (root scope : String) (sr : ScopeResult),
      (scope, sr) ∈ analyzeMethod env m perScope cls mp root →
      sr.plugins.Sorted (fun a b => a.sortOrder ≤ b.sortOrder)) ∧
    (∀ (env : ReflectionEnv) (m : String)
       (perScope : List (String × List PluginDecl)) (cls : String)
       (mp : List (String × String)) (root scope : String) (sr : ScopeResult),
      (scope, sr) ∈ analyzeMethod env m perScope cls mp root →
      ∃ matched, (scope, matched) ∈ perScope ∧
        ∀ v : Int, sr.plugins.filter (fun p => p.sortOrder == v) =
          ((filterPluginsByMethod env matched (ucfirst m) mp root).map
            (fun p => { p with scope := scope })).filter
            (fun p => p.sortOrder == v)) := by
  constructor
  · intro env m perScope cls mp root scope sr h
    rcases analyzeMethod_mem env m perScope cls mp root scope sr h with
      ⟨matched, _, _, hplugins, _, _⟩
    rw [hplugins]
    exact List.Pairwise.map _ (fun a b hab => hab)
      (sorted_sortBySortOrder (filterPluginsByMethod env matched (ucfirst m) mp root))
  · intro env m perScope cls mp root scope sr h
    rcases analyzeMethod_mem env m perScope cls mp root scope sr h with
      ⟨matched, hmem, _, hplugins, _, _⟩
    refine ⟨matched, hmem, ?_⟩
    intro v
    rw [hplugins, List.filter_map, List.filter_map]
    have hpred : ((fun p : FilteredPlugin => p.sortOrder == v) ∘
        (fun p => { p with scope := scope })) =
        (fun q : FilteredPlugin => q.sortOrder == v) :=
      funext (fun p => rfl)
    rw [hpred, filter_sortBySortOrder]

/-- Witness for C8: two plugins tied at sortOrder 10 come out sorted, in
parse order. -/
theorem claim_C8_witness :
    ("global", srW) ∈ analyzeMethod envW "doIt" [("global", [declW1, declW2])] "T" [] "/r" ∧
    srW.plugins.Sorted (fun a b => a.sortOrder ≤ b.sortOrder) :=
  ⟨by decide,
   claim_C8.1 envW "doIt" [("global", [declW1, declW2])] "T" [] "/r" "global" srW
     (by decide)⟩

/-- C3: nothing disabled survives the disabled-removal lookup, and in every
emitted result of any request, no plugin record carries disabled "true" or
"1" — a plugin disabled in the effective merged mapping never appears. -/
theorem claim_C3 :
    (∀ (m : PluginMap) (k : String) (p : PluginDecl),
      assocGet (removeDisabled m) k = some p →
      p.disabled ≠ "true" ∧ p.disabled ≠ "1") ∧
    (∀ (fs : Fs) (env : ReflectionEnv) (root cls : String) (mn : Option String)
       (mp : List (String × String)) (out : Output),
      runScript fs env root cls mn mp = .ok out →
      ∀ (scope : String) (sr : ScopeResult) (fp : FilteredPlugin),
        (scope, sr) ∈ out.scopeResultsAll → fp ∈ sr.plugins →
        fp.disabled ≠ "true" ∧ fp.disabled ≠ "1") := by
  constructor
  · intro m k p h
    exact assocGet_removeDisabled_some m k p h
  · intro fs env root cls mn mp out hrun scope sr fp hmem hfp
    rcases runScript_scopeResults_mem fs env root cls mn mp out hrun scope sr hmem
      with ⟨m, hm⟩
    rcases analyzeMethod_mem env m _ cls mp root scope sr hm with
      ⟨matched, hmatched, _, hplugins, _, _⟩
    rw [hplugins] at hfp
    rcases List.mem_map.mp hfp with ⟨q, hq, rfl⟩
    have hq' : q ∈ filterPluginsByMethod env matched (ucfirst m) mp root := by
      unfold sortBySortOrder at hq
      exact (List.mem_insertionSort pluginLE).mp hq
    rcases (mem_filterPluginsByMethod env matched (ucfirst m) mp root q).mp hq'
      with ⟨pd, hpd, hproc⟩
    have hfields := processPlugin_some_fields env (ucfirst m) mp root pd q hproc
    have hmatched' : (scope, matched) ∈ perScopeMatchedOf fs
        (parsePluginsFromFiles fs (collectDiXmlFiles fs mp root "global"))
        (areaDiFilesOf fs mp)
        ((hierarchyAndWarnings env cls).1.map ltrimBackslash) := hmatched
    rcases perScopeMatchedOf_mem fs _ _ _ scope matched hmatched' with ⟨_, hm2, _⟩
    rw [hm2] at hpd
    rcases mem_matchedFor _ _ pd hpd with ⟨e, he, hpe, _⟩
    have hdis := (mem_removeDisabled _ e he).2
    have hde : ({ q with scope := scope } : FilteredPlugin).disabled = e.2.disabled := by
      show q.disabled = e.2.disabled
      rw [hfields.2.2.2.2.1, hpe]
    rw [hde]
    exact hdis

/-- Witness for C3: an enabled entry survives removal and is not disabled. -/
theorem claim_C3_witness :
    assocGet (removeDisabled [("T::p", declW1)]) "T::p" = some declW1 ∧
    (declW1.disabled ≠ "true" ∧ declW1.disabled ≠ "1") :=
  ⟨by decide, claim_C3.1 [("T::p", declW1)] "T::p" declW1 (by decide)⟩

/-- C4: the scope merge is plain overwrite — a scope-specific entry
replaces the global entry of the same key wholesale (here blanking the
pluginType and resetting sortOrder, which the refinement merge would have
kept) — and disabled removal runs after the merge: a plugin enabled
globally but declared disabled="1" only in the frontend file appears in
the results of global and the other scopes yet is absent from frontend. -/
theorem claim_C4 :
    (∀ (fs : Fs) (files : List String) (base : PluginMap) (k : String)
       (p : PluginDecl),
      assocGet (parsePluginsFromFiles fs files) k = some p →
      assocGet (mergeOverwrite base (parsePluginsFromFiles fs files)) k = some p) ∧
    assocGet (mergedFor fsA
      (parsePluginsFromFiles fsA (collectDiXmlFiles fsA modsA "/root" "global"))
      (areaDiFilesOf fsA modsA) "frontend") "T::p" = some
      { pluginName := "p", pluginType := "", targetType := "T", sortOrder := 0,
        disabled := "1", sourceFile := "/m/a/etc/frontend/di.xml" } ∧
    singleScopes (runScript fsA envA "/root" "T" (some "doIt") modsA) =
      ["global", "adminhtml", "crontab", "webapi_rest", "webapi_soap", "graphql"] ∧
    singleScopePluginNames (runScript fsA envA "/root" "T" (some "doIt") modsA)
      "global" = ["p"] ∧
    singleScopePluginNames (runScript fsA envA "/root" "T" (some "doIt") modsA)
      "adminhtml" = ["p"] ∧
    singleScopePluginNames (runScript fsA envA "/root" "T" (some "doIt") modsA)
      "frontend" = [] := by
  refine ⟨?_, by decide, by decide, by decide, by decide, by decide⟩
  intro fs files base k p h
  exact assocGet_mergeOverwrite_of_overlay base _ k p
    (nodupKeys_parsePluginsFromFiles fs files) h

/-- Witness for C4: the frontend overlay entry wins wholesale over the
global entry with the same key. -/
theorem claim_C4_witness :
    assocGet (parsePluginsFromFiles fsA ["/m/a/etc/frontend/di.xml"]) "T::p" = some
      { pluginName := "p", pluginType := "", targetType := "T", sortOrder := 0,
        disabled := "1", sourceFile := "/m/a/etc/frontend/di.xml" } ∧
    assocGet (mergeOverwrite
      (parsePluginsFromFiles fsA (collectDiXmlFiles fsA modsA "/root" "global"))
      (parsePluginsFromFiles fsA ["/m/a/etc/frontend/di.xml"])) "T::p" = some
      { pluginName := "p", pluginType := "", targetType := "T", sortOrder := 0,
        disabled := "1", sourceFile := "/m/a/etc/frontend/di.xml" } :=
  ⟨by decide,
   claim_C4.1 fsA ["/m/a/etc/frontend/di.xml"]
     (parsePluginsFromFiles fsA (collectDiXmlFiles fsA modsA "/root" "global"))
     "T::p"
     { pluginName := "p", pluginType := "", targetType := "T", sortOrder := 0,
       disabled := "1", sourceFile := "/m/a/etc/frontend/di.xml" }
     (by decide)⟩

/-- C7: when no parsed declaration in any scope targets a member of the
class hierarchy, the emitted result has totalPluginCount 0 and empty
scopeResults (single-method mode) or empty methodResults (all-methods
mode); and in every emitted result, scopes and methods with zero matches
are omitted rather than represented by empty placeholders. -/
theorem claim_C7 :
    (∀ (fs : Fs) (env : ReflectionEnv) (root cls : String)
       (mp : List (String × String)),
      (∀ e ∈ parsePluginsFromFiles fs (collectDiXmlFiles fs mp root "global"),
        ((hierarchyAndWarnings env cls).1.map ltrimBackslash).contains
          (ltrimBackslash e.2.targetType) = false) →
      (∀ s files, (s, files) ∈ areaDiFilesOf fs mp →
        ∀ e ∈ parsePluginsFromFiles fs files,
          ((hierarchyAndWarnings env cls).1.map ltrimBackslash).contains
            (ltrimBackslash e.2.targetType) = false) →
      (∀ (m : String) (out : SingleOutput),
        runScript fs env root cls (some m) mp = .ok (.single out) →
        out.totalPluginCount = 0 ∧ out.scopeResults = []) ∧
      (∀ out : AllOutput,
        runScript fs env root cls none mp = .ok (.allMethods out) →
        out.totalPluginCount = 0 ∧ out.methodResults = [] ∧
        out.methodsWithPlugins = 0)) ∧
    (∀ (fs : Fs) (env : ReflectionEnv) (root cls : String) (mn : Option String)
       (mp : List (String × String)) (out : Output) (scope : String)
       (sr : ScopeResult),
      runScript fs env root cls mn mp = .ok out →
      (scope, sr) ∈ out.scopeResultsAll → sr.plugins ≠ []) ∧
    (∀ (fs : Fs) (env : ReflectionEnv) (root cls : String)
       (mp : List (String × String)) (out : AllOutput),
      runScript fs env root cls none mp = .ok (.allMethods out) →
      ∀ meth mr, (meth, mr) ∈ out.methodResults → mr.scopeResults ≠ []) := by
  refine ⟨?_, ?_, ?_⟩
  · intro fs env root cls mp hG hA
    have hps : perScopeOf fs env root cls mp = [] :=
      perScopeMatchedOf_eq_nil fs _ _ _ hG hA
    constructor
    · intro m out hrun
      rw [runScript_some_eq] at hrun
      rcases Output.single.inj (Except.ok.inj hrun) with rfl
      constructor
      · show (analyzeMethod env m (perScopeOf fs env root cls mp)
            cls mp root).foldl (fun acc sr => acc + sr.2.pluginCount) 0 = 0
        rw [hps]
        rfl
      · show analyzeMethod env m (perScopeOf fs env root cls mp) cls mp root = []
        rw [hps]
        rfl
    · intro out hrun
      cases hms : methodsToScan env cls none (hierarchyAndWarnings env cls).2 with
      | error e =>
        simp only [runScript, hms] at hrun
        cases hrun
      | ok ms =>
        rw [runScript_none_eq fs env root cls mp ms hms] at hrun
        rcases Output.allMethods.inj (Except.ok.inj hrun) with rfl
        refine ⟨?_, ?_, ?_⟩
        · show (ms.1.foldl (methodFoldStep env (perScopeOf fs env root cls mp)
            cls mp root) ([], 0)).2 = 0
          rw [hps, foldl_methodFoldStep_id]
        · show (ms.1.foldl (methodFoldStep env (perScopeOf fs env root cls mp)
            cls mp root) ([], 0)).1 = []
          rw [hps, foldl_methodFoldStep_id]
        · show (ms.1.foldl (methodFoldStep env (perScopeOf fs env root cls mp)
            cls mp root) ([], 0)).1.length = 0
          rw [hps, foldl_methodFoldStep_id]
          rfl
  · intro fs env root cls mn mp out scope sr hrun hmem
    rcases runScript_scopeResults_mem fs env root cls mn mp out hrun scope sr hmem
      with ⟨m, hm⟩
    rcases analyzeMethod_mem env m _ cls mp root scope sr hm with
      ⟨matched, _, hne, hplugins, _, _⟩
    rw [hplugins]
    intro hnil
    apply hne
    have hsort : sortBySortOrder
        (filterPluginsByMethod env matched (ucfirst m) mp root) = [] :=
      List.map_eq_nil_iff.mp hnil
    have hlen := congrArg List.length hsort
    unfold sortBySortOrder at hlen
    rw [List.length_insertionSort] at hlen
    exact List.length_eq_zero.mp hlen
  · intro fs env root cls mp out hrun meth mr hmr
    cases hms : methodsToScan env cls none (hierarchyAndWarnings env cls).2 with
    | error e =>
      simp only [runScript, hms] at hrun
      cases hrun
    | ok ms =>
      rw [runScript_none_eq fs env root cls mp ms hms] at hrun
      rcases Output.allMethods.inj (Except.ok.inj hrun) with rfl
      rcases foldl_methodFoldStep_mem env (perScopeOf fs env root cls mp) cls mp
          root ms.1 ([], 0) (meth, mr) hmr with h' | h'
      · cases h'
      · exact h'.2.2.2

/-- Witness for C7: an installation with no files at all yields an empty
single-method result for a reflectable class. -/
theorem claim_C7_witness :
    singleTotal (runScript fs0 envA "/r" "T" (some "doIt") []) = 0 ∧
    singleScopeResults (runScript fs0 envA "/r" "T" (some "doIt") []) = [] := by
  have hmain := (claim_C7.1 fs0 envA "/r" "T" [] (by decide)
    (fun s files h => absurd h (List.not_mem_nil _))).1
  have h := hmain "doIt" _ (runScript_some_eq fs0 envA "/r" "T" "doIt" [])
  constructor
  · rw [runScript_some_eq fs0 envA "/r" "T" "doIt" []]
    exact h.1
  · rw [runScript_some_eq fs0 envA "/r" "T" "doIt" []]
    exact h.2

/-- C10: in every emitted result, the pluginCount of each scope entry equals the
length of its plugins array; in single-method mode totalPluginCount is the
sum of pluginCount over scope entries; in all-methods mode each per-method
totalPluginCount is the sum over its scope entries, the grand
totalPluginCount is the sum over methods, methodsWithPlugins equals the
number of methodResults entries, and methodsWithPlugins is at most
methodsChecked. -/
theorem claim_C10 :
    (∀ (fs : Fs) (env : ReflectionEnv) (root cls m : String)
       (mp : List (String × String)) (out : SingleOutput),
      runScript fs env root cls (some m) mp = .ok (.single out) →
      (∀ scope sr, (scope, sr) ∈ out.scopeResults →
        sr.pluginCount = sr.plugins.length) ∧
      out.totalPluginCount =
        (out.scopeResults.map (fun e => e.2.pluginCount)).sum) ∧
    (∀ (fs : Fs) (env : ReflectionEnv) (root cls : String)
       (mp : List (String × String)) (out : AllOutput),
      runScript fs env root cls none mp = .ok (.allMethods out) →
      (∀ meth mr, (meth, mr) ∈ out.methodResults →
        (∀ scope sr, (scope, sr) ∈ mr.scopeResults →
          sr.pluginCount = sr.plugins.length) ∧
        mr.totalPluginCount =
          (mr.scopeResults.map (fun e => e.2.pluginCount)).sum) ∧
      out.totalPluginCount =
        (out.methodResults.map (fun e => e.2.totalPluginCount)).sum ∧
      out.methodsWithPlugins = out.methodResults.length ∧
      out.methodsWithPlugins ≤ out.methodsChecked) := by
  constructor
  · intro fs env root cls m mp out hrun
    rw [runScript_some_eq] at hrun
    rcases Output.single.inj (Except.ok.inj hrun) with rfl
    constructor
    · intro scope sr hmem
      rcases analyzeMethod_mem env m (perScopeOf fs env root cls mp) cls mp root
        scope sr hmem with ⟨_, _, _, _, _, hcount⟩
      exact hcount
    · show (analyzeMethod env m (perScopeOf fs env root cls mp)
          cls mp root).foldl (fun acc sr => acc + sr.2.pluginCount) 0 = _
      rw [foldl_add_pluginCount]
      exact Nat.zero_add _
  · intro fs env root cls mp out hrun
    cases hms : methodsToScan env cls none (hierarchyAndWarnings env cls).2 with
    | error e =>
      simp only [runScript, hms] at hrun
      cases hrun
    | ok ms =>
      rw [runScript_none_eq fs env root cls mp ms hms] at hrun
      rcases Output.allMethods.inj (Except.ok.inj hrun) with rfl
      refine ⟨?_, ?_, rfl, ?_⟩
      · intro meth mr hmr
        rcases foldl_methodFoldStep_mem env (perScopeOf fs env root cls mp) cls mp
            root ms.1 ([], 0) (meth, mr) hmr with h | h
        · cases h
        · constructor
          · intro scope sr hsr
            rw [h.2.1] at hsr
            rcases analyzeMethod_mem env meth (perScopeOf fs env root cls mp) cls
              mp root scope sr hsr with ⟨_, _, _, _, _, hcount⟩
            exact hcount
          · rw [h.2.2.1, h.2.1, foldl_add_pluginCount]
            exact Nat.zero_add _
      · exact foldl_methodFoldStep_sum env (perScopeOf fs env root cls mp) cls mp
          root ms.1 ([], 0) rfl
      · simpa using foldl_methodFoldStep_len env (perScopeOf fs env root cls mp)
          cls mp root ms.1 ([], 0)

/-- Witness for C10: a single-method run on the one-module fixture satisfies
the total-count identity. -/
theorem claim_C10_witness :
    singleTotal (runScript fsA envA "/root" "T" (some "doIt") modsA) =
      ((singleScopeResults (runScript fsA envA "/root" "T" (some "doIt") modsA)).map
        (fun e => e.2.pluginCount)).sum :=
  (claim_C10.1 fsA envA "/root" "T" "doIt" modsA _
    (runScript_some_eq fsA envA "/root" "T" "doIt" modsA)).2

end MagePlugins
